import Mathlib

/-!
# pixelart: cursor overlay and key handling

A shallow embedding of `pixelart.go`: the image buffer (`MoveCursor`,
`DrawCursor`, `NewImageBuffer`), the application state (`redrawCursors`) and
the key handler installed by `openWindow`, together with the parts of Go's
`image` and `image/color` packages the program calls (`image.Rect`,
`image.NewRGBA`, `(*image.RGBA).Set`, `RGBAAt`, `color.RGBAModel.Convert`).

Conventions of the embedding.

* A colour channel is a `uint8`, modelled as `Fin 256`.  Wider unsigned
  arithmetic (`uint16` in `DrawCursor`, `uint32` in the colour conversions) is
  done in `Nat` and reduced with an explicit `% 2^w`.
* Coordinates are Go `int`s, modelled as `Int`.  `image.NewRGBA` refuses any
  rectangle whose pixel buffer length `4 * w * h` does not fit in an `int`, so
  the coordinates of an allocated raster, their successors and their triples
  stay far from the ends of the `int` range; coordinate arithmetic is therefore
  exact.
* The pixel buffer `Pix []uint8` of an `image.RGBA` (indexed through
  `PixOffset`) is modelled as a function from coordinates to pixels; reads and
  writes go through `RGBAAt` and `Set`, which are guarded by the rectangle as in
  Go.
* Every image buffer of the program is created over a freshly allocated canvas
  and overlay, so a buffer owns its two rasters by value.  The field
  `CursorColor` always holds `&state.currentColor`; `DrawCursor` receives the
  value stored there as an argument.  The toolkit widgets and `Refresh` calls
  only display the rasters and are not part of the state.
* The set of open buffers `map[*ImageBuffer]bool` is a list; a window is
  identified by the position of its buffer.
* The states the program can be in are those `main` reaches: it starts from no
  open buffer, loads images through `loadReader` (at startup and from the
  dialog of the key `O`), handles key events and closes windows.
-/

set_option linter.dupNamespace false

namespace Pixelart

/-! ## `image/color` -/

/-- Conversion `uint8(n)`: truncation to the low eight bits. -/
def uint8 (n : Nat) : Fin 256 := ⟨n % 256, Nat.mod_lt n (by decide)⟩

/-- Conversion `uint16(c)` of a `uint8` channel. -/
def uint16 (c : Fin 256) : Nat := c.val % 65536

/-- Conversion `uint32(n)`. -/
def uint32 (n : Nat) : Nat := n % 4294967296

/-- The Go type `color.RGBA`: four 8-bit channels. -/
structure RGBA where
  R : Fin 256
  G : Fin 256
  B : Fin 256
  A : Fin 256
deriving DecidableEq, Repr

/-- The dynamic types of `color.Color` values this program passes to `Set`:
a `color.RGBA` value, a `*color.RGBA` (its target read at the call) and a
`color.Alpha16`. -/
inductive Color where
  | rgba (c : RGBA)
  | rgbaPtr (c : RGBA)
  | alpha16 (A : Nat)
deriving DecidableEq, Repr

/-- The method `color.RGBA.RGBA`: each channel `c` widened to `c | c << 8`. -/
def RGBA.RGBA (c : RGBA) : Nat × Nat × Nat × Nat :=
  let r := uint32 c.R.val
  let r := r ||| uint32 (r <<< 8)
  let g := uint32 c.G.val
  let g := g ||| uint32 (g <<< 8)
  let b := uint32 c.B.val
  let b := b ||| uint32 (b <<< 8)
  let a := uint32 c.A.val
  let a := a ||| uint32 (a <<< 8)
  (r, g, b, a)

/-- The method `RGBA()` of the interface `color.Color`.  A `*color.RGBA`
inherits the method of `color.RGBA`; `color.Alpha16` returns its alpha in all
four channels. -/
def Color.RGBA : Color → Nat × Nat × Nat × Nat
  | .rgba c => c.RGBA
  | .rgbaPtr c => c.RGBA
  | .alpha16 A => let a := uint32 A; (a, a, a, a)

/-- The function `rgbaModel` behind `color.RGBAModel.Convert`: a `color.RGBA`
value is returned as it is, anything else (a pointer included, for which the
type assertion `c.(RGBA)` fails) goes through `RGBA()` and `>> 8`. -/
def rgbaModel : Color → RGBA
  | .rgba c => c
  | c =>
    let (r, g, b, a) := c.RGBA
    ⟨uint8 (r >>> 8), uint8 (g >>> 8), uint8 (b >>> 8), uint8 (a >>> 8)⟩

/-- The value `color.Transparent`, which is `color.Alpha16{0}`. -/
def Transparent : Color := .alpha16 0

/-! ## `image` -/

/-- The Go type `image.Point`. -/
structure Point where
  X : Int
  Y : Int
deriving DecidableEq, Repr

/-- The Go type `image.Rectangle`. -/
structure Rectangle where
  Min : Point
  Max : Point
deriving DecidableEq, Repr

/-- The function `image.Rect`: the rectangle with the coordinates put in
order. -/
def Rect (x0 y0 x1 y1 : Int) : Rectangle :=
  let (x0, x1) := if x0 > x1 then (x1, x0) else (x0, x1)
  let (y0, y1) := if y0 > y1 then (y1, y0) else (y0, y1)
  ⟨⟨x0, y0⟩, ⟨x1, y1⟩⟩

/-- The method `Rectangle.Dx`: the width. -/
def Rectangle.Dx (r : Rectangle) : Int := r.Max.X - r.Min.X

/-- The method `Rectangle.Dy`: the height. -/
def Rectangle.Dy (r : Rectangle) : Int := r.Max.Y - r.Min.Y

/-- The method `Rectangle.Empty`. -/
def Rectangle.Empty (r : Rectangle) : Bool :=
  decide (r.Min.X ≥ r.Max.X) || decide (r.Min.Y ≥ r.Max.Y)

/-- The method `Point.In`. -/
def Point.In (p : Point) (r : Rectangle) : Bool :=
  decide (r.Min.X ≤ p.X) && decide (p.X < r.Max.X) &&
    decide (r.Min.Y ≤ p.Y) && decide (p.Y < r.Max.Y)

/-- The Go type `image.RGBA`: a rectangle and its pixels. -/
structure Image where
  Rect : Rectangle
  Pix : Int → Int → RGBA

/-- The function `image.NewRGBA`: a raster over `r` whose buffer is zeroed. -/
def NewRGBA (r : Rectangle) : Image :=
  ⟨r, fun _ _ => ⟨0, 0, 0, 0⟩⟩

/-- The method `(*image.RGBA).Bounds`. -/
def Image.Bounds (p : Image) : Rectangle := p.Rect

/-- The method `(*image.RGBA).RGBAAt`: the zero colour outside the
rectangle. -/
def Image.RGBAAt (p : Image) (x y : Int) : RGBA :=
  if !(Point.In ⟨x, y⟩ p.Rect) then ⟨0, 0, 0, 0⟩ else p.Pix x y

/-- The method `(*image.RGBA).Set`: nothing outside the rectangle, otherwise
the colour converted by `color.RGBAModel` is stored at `(x, y)`. -/
def Image.Set (p : Image) (x y : Int) (c : Color) : Image :=
  if !(Point.In ⟨x, y⟩ p.Rect) then p
  else
    let c1 := rgbaModel c
    { p with Pix := fun u v => if u = x ∧ v = y then c1 else p.Pix u v }

/-! ## `ImageBuffer` -/

/-- The type `ImageBuffer`: the canvas, the overlay and the cursor position. -/
structure ImageBuffer where
  Canvas : Image
  Overlay : Image
  CursorPos : Point

/-- The method `ImageBuffer.DrawCursor`; `cursorColor` is the colour
`i.CursorColor` points to. -/
def ImageBuffer.DrawCursor (i : ImageBuffer) (cursorColor : RGBA) : ImageBuffer :=
  let c := i.Canvas.RGBAAt i.CursorPos.X i.CursorPos.Y
  let c : RGBA :=
    if ((uint16 c.R + uint16 c.G) % 65536 + uint16 c.B) % 65536 < 384 then
      ⟨255, 255, 255, 255⟩
    else
      ⟨0, 0, 0, 255⟩
  let overlay := i.Overlay.Set (i.CursorPos.X * 3) (i.CursorPos.Y * 3) (.rgba c)
  let overlay :=
    overlay.Set (i.CursorPos.X * 3 + 1) (i.CursorPos.Y * 3 + 1) (.rgbaPtr cursorColor)
  { i with Overlay := overlay }

/-- The method `ImageBuffer.MoveCursor`. -/
def ImageBuffer.MoveCursor (i : ImageBuffer) (cursorColor : RGBA) (x y : Int) :
    ImageBuffer :=
  let overlay := i.Overlay.Set (i.CursorPos.X * 3) (i.CursorPos.Y * 3) Transparent
  let overlay := overlay.Set (i.CursorPos.X * 3 + 1) (i.CursorPos.Y * 3 + 1) Transparent
  let i := { i with Overlay := overlay }
  let i := { i with CursorPos := ⟨x, y⟩ }
  i.DrawCursor cursorColor

/-- The function `NewImageBuffer`. -/
def NewImageBuffer (im : Image) : ImageBuffer :=
  let bounds := im.Bounds
  let overlayImage := NewRGBA (Rect 0 0 (bounds.Dx * 3) (bounds.Dy * 3))
  ⟨im, overlayImage, bounds.Min⟩

/-! ## `appState` and the key handler -/

/-- The type `appState`: the selected colour and the open buffers. -/
structure appState where
  currentColor : RGBA
  buffers : List ImageBuffer

/-- The method `appState.redrawCursors`.  The buffers own disjoint rasters, so
the order in which the map is ranged over does not matter. -/
def appState.redrawCursors (a : appState) : appState :=
  { a with buffers := a.buffers.map (fun k => k.DrawCursor a.currentColor) }

/-- The key events of `SetOnTypedKey` that act on the rasters, the cursor, the
selected colour or the open buffers.  The colour picker of `C` calls back with
the picked colour, given here by the four `uint32` results of its `RGBA()`, or
not at all when it is dismissed.  The key `S` writes a file and leaves the state
alone; the key `O` opens a file dialog whose callback runs `loadReader`, which is
a step of its own below. -/
inductive KeyEvent where
  | Up
  | Down
  | Left
  | Right
  | Y
  | Space
  | C (picked : Option (Nat × Nat × Nat × Nat))
  | N
deriving DecidableEq, Repr

/-- Store `b` as the buffer of window `k`: the effect of mutating through the
pointer `imBuf`. -/
def appState.setBuffer (state : appState) (k : Nat) (b : ImageBuffer) : appState :=
  { state with buffers := state.buffers.set k b }

/-- The part of `openWindow` that acts on the state: the buffer is registered
in `state.buffers` and its cursor is drawn. -/
def openWindow (state : appState) (imBuf : ImageBuffer) : appState :=
  { state with buffers := state.buffers ++ [imBuf.DrawCursor state.currentColor] }

/-- The key handler `openWindow` installs for the window of buffer `k`.  A
window that is not open receives no events. -/
def onTypedKey (state : appState) (k : Nat) (e : KeyEvent) : appState :=
  match state.buffers[k]? with
  | none => state
  | some imBuf =>
    match e with
    | .Up =>
      if imBuf.CursorPos.Y > imBuf.Canvas.Bounds.Min.Y then
        state.setBuffer k
          (imBuf.MoveCursor state.currentColor imBuf.CursorPos.X (imBuf.CursorPos.Y - 1))
      else state
    | .Down =>
      if imBuf.CursorPos.Y + 1 < imBuf.Canvas.Bounds.Max.Y then
        state.setBuffer k
          (imBuf.MoveCursor state.currentColor imBuf.CursorPos.X (imBuf.CursorPos.Y + 1))
      else state
    | .Left =>
      if imBuf.CursorPos.X > imBuf.Canvas.Bounds.Min.X then
        state.setBuffer k
          (imBuf.MoveCursor state.currentColor (imBuf.CursorPos.X - 1) imBuf.CursorPos.Y)
      else state
    | .Right =>
      if imBuf.CursorPos.X + 1 < imBuf.Canvas.Bounds.Max.X then
        state.setBuffer k
          (imBuf.MoveCursor state.currentColor (imBuf.CursorPos.X + 1) imBuf.CursorPos.Y)
      else state
    | .Y =>
      let state :=
        { state with
          currentColor := imBuf.Canvas.RGBAAt imBuf.CursorPos.X imBuf.CursorPos.Y }
      state.redrawCursors
    | .Space =>
      let imBuf :=
        { imBuf with
          Canvas :=
            imBuf.Canvas.Set imBuf.CursorPos.X imBuf.CursorPos.Y (.rgba state.currentColor) }
      state.setBuffer k (imBuf.DrawCursor state.currentColor)
    | .C none => state
    | .C (some (r, g, b, a)) =>
      let state :=
        { state with
          currentColor := ⟨uint8 (r >>> 8), uint8 (g >>> 8), uint8 (b >>> 8), uint8 (a >>> 8)⟩ }
      state.redrawCursors
    | .N =>
      let buf := NewImageBuffer (NewRGBA (Rect 0 0 50 50))
      openWindow state buf

/-- The function `draw.Draw` with the operator `draw.Src`, the source being
read as `color.RGBA`: every point of `r` that lies in the destination and whose
source point `sp + (p - r.Min)` lies in the source receives the source pixel. -/
def Draw (dst : Image) (r : Rectangle) (src : Image) (sp : Point) : Image :=
  { dst with
    Pix := fun x y =>
      if Point.In ⟨x, y⟩ r && Point.In ⟨x, y⟩ dst.Rect &&
          Point.In ⟨x - r.Min.X + sp.X, y - r.Min.Y + sp.Y⟩ src.Rect then
        src.RGBAAt (x - r.Min.X + sp.X) (y - r.Min.Y + sp.Y)
      else dst.Pix x y }

/-- The function `loadReader`, from the decoded image `m` on: the image is
copied into a fresh raster of its size with origin `(0, 0)`, a buffer is built
over it and a window is opened. -/
def loadReader (state : appState) (m : Image) : appState :=
  let bounds := m.Bounds
  let converted := NewRGBA (Rect 0 0 bounds.Dx bounds.Dy)
  let converted := Draw converted converted.Bounds m bounds.Min
  let imBuf := NewImageBuffer converted
  openWindow state imBuf

/-- The close handler `openWindow` installs for the window of buffer `k`: the
buffer leaves `state.buffers`.  The windows after it move down one position. -/
def closeWindow (state : appState) (k : Nat) : appState :=
  { state with buffers := state.buffers.eraseIdx k }

/-- The states of the running program.  The function `main` starts with the
selected colour opaque black and no open buffer; an image is loaded by
`loadReader` (the decoders return it with well-formed bounds, `Min ≤ Max`); a
key is typed in a window; a window is closed. -/
inductive Reachable : appState → Prop where
  | start : Reachable ⟨⟨0, 0, 0, 255⟩, []⟩
  | load (state : appState) (m : Image) (hx : m.Bounds.Min.X ≤ m.Bounds.Max.X)
      (hy : m.Bounds.Min.Y ≤ m.Bounds.Max.Y) (h : Reachable state) :
      Reachable (loadReader state m)
  | key (state : appState) (k : Nat) (e : KeyEvent) (h : Reachable state) :
      Reachable (onTypedKey state k e)
  | close (state : appState) (k : Nat) (h : Reachable state) :
      Reachable (closeWindow state k)

/-! ## Buffer invariants -/

/-- The cursor position lies within the canvas bounds. -/
def ImageBuffer.CursorInBounds (i : ImageBuffer) : Prop :=
  i.CursorPos.In i.Canvas.Bounds = true

/-- The canvas has its origin at `(0, 0)`. -/
def ImageBuffer.CanvasAtOrigin (i : ImageBuffer) : Prop :=
  i.Canvas.Bounds.Min = ⟨0, 0⟩

/-- The overlay spans the rectangle `NewImageBuffer` allocates for it: three
times the canvas in both dimensions. -/
def ImageBuffer.OverlayScaled (i : ImageBuffer) : Prop :=
  i.Overlay.Rect = Rect 0 0 (i.Canvas.Bounds.Dx * 3) (i.Canvas.Bounds.Dy * 3)

instance (i : ImageBuffer) : Decidable i.CursorInBounds := by
  unfold ImageBuffer.CursorInBounds
  infer_instance

instance (i : ImageBuffer) : Decidable i.CanvasAtOrigin := by
  unfold ImageBuffer.CanvasAtOrigin
  infer_instance

instance (i : ImageBuffer) : Decidable i.OverlayScaled := by
  unfold ImageBuffer.OverlayScaled
  infer_instance

/-- The position `q` is one unit away from `p` along one axis: the positions
the arrow keys move the cursor to. -/
def Point.Adjacent (p q : Point) : Prop :=
  (q.X = p.X ∧ (q.Y = p.Y - 1 ∨ q.Y = p.Y + 1)) ∨
    (q.Y = p.Y ∧ (q.X = p.X - 1 ∨ q.X = p.X + 1))

instance (p q : Point) : Decidable (p.Adjacent q) := by
  unfold Point.Adjacent
  infer_instance

/-! ## Example states -/

/-- Opaque red. -/
def red : RGBA := ⟨255, 0, 0, 255⟩

/-- A 2x2 canvas at the origin, every pixel opaque black. -/
def blackCanvas : Image := ⟨Rect 0 0 2 2, fun _ _ => ⟨0, 0, 0, 255⟩⟩

/-- A 2x2 canvas at the origin whose pixels have the channel sum 383, except
`(1, 0)` whose sum is 384. -/
def greyCanvas : Image :=
  ⟨Rect 0 0 2 2, fun x y => if x = 1 ∧ y = 0 then ⟨128, 128, 128, 7⟩ else ⟨128, 128, 127, 255⟩⟩

/-- The buffer `NewImageBuffer` builds over `greyCanvas`. -/
def greyBuffer : ImageBuffer := NewImageBuffer greyCanvas

/-- A buffer over a 2x1 canvas at the origin with the cursor at `(0, 0)`, whose
overlay holds one opaque white pixel at `(2, 2)`, inside the cursor's 3x3 cell,
and is transparent elsewhere. -/
def strayBuffer : ImageBuffer :=
  ⟨⟨Rect 0 0 2 1, fun _ _ => ⟨0, 0, 0, 255⟩⟩,
    ⟨Rect 0 0 6 3, fun u v => if u = 2 ∧ v = 2 then ⟨255, 255, 255, 255⟩ else ⟨0, 0, 0, 0⟩⟩,
    ⟨0, 0⟩⟩

/-- The state of the program once `main` has loaded `greyCanvas`. -/
def loadedState : appState := loadReader ⟨⟨0, 0, 0, 255⟩, []⟩ greyCanvas

/-- The buffer of the one window of `loadedState`. -/
def loadedBuffer : ImageBuffer :=
  (NewImageBuffer
    (Draw (NewRGBA (Rect 0 0 2 2)) (NewRGBA (Rect 0 0 2 2)).Bounds greyCanvas ⟨0, 0⟩)).DrawCursor
    ⟨0, 0, 0, 255⟩

/-- The state of the program once `blackCanvas` has been loaded as well: two
open windows. -/
def twoLoadedState : appState := loadReader loadedState blackCanvas

/-- The buffer of the second window of `twoLoadedState`. -/
def blackLoadedBuffer : ImageBuffer :=
  (NewImageBuffer
    (Draw (NewRGBA (Rect 0 0 2 2)) (NewRGBA (Rect 0 0 2 2)).Bounds blackCanvas ⟨0, 0⟩)).DrawCursor
    ⟨0, 0, 0, 255⟩

/-- One open window over `greyCanvas`, the selected colour being red. -/
def greyState : appState := openWindow ⟨red, []⟩ (NewImageBuffer greyCanvas)

/-- The paint scenario: one open window over the 2x2 opaque-black canvas, the
cursor at `(0, 0)` and the selected colour opaque red. -/
def scenarioState : appState := openWindow ⟨red, []⟩ (NewImageBuffer blackCanvas)

/-- Two open windows, over `greyCanvas` and over `blackCanvas`. -/
def twoState : appState := openWindow greyState (NewImageBuffer blackCanvas)

/-! ## Colour conversion -/

set_option maxRecDepth 100000 in
theorem uint8_widen_shift (c : Fin 256) :
    uint8 ((uint32 c.val ||| uint32 (uint32 c.val <<< 8)) >>> 8) = c := by
  revert c
  decide

theorem rgbaModel_rgba (c : RGBA) : rgbaModel (.rgba c) = c := rfl

theorem rgbaModel_rgbaPtr (c : RGBA) : rgbaModel (.rgbaPtr c) = c := by
  cases c
  simp [rgbaModel, Color.RGBA, RGBA.RGBA, uint8_widen_shift]

theorem rgbaModel_Transparent : rgbaModel Transparent = ⟨0, 0, 0, 0⟩ := by
  decide

/-! ## Reading after writing -/

theorem Image.Set_Rect (p : Image) (x y : Int) (c : Color) :
    (p.Set x y c).Rect = p.Rect := by
  unfold Image.Set
  split <;> rfl

theorem Image.RGBAAt_Set (p : Image) (x y : Int) (c : Color) (u v : Int) :
    (p.Set x y c).RGBAAt u v =
      if Point.In ⟨x, y⟩ p.Rect = true ∧ u = x ∧ v = y then rgbaModel c
      else p.RGBAAt u v := by
  by_cases hin : Point.In ⟨x, y⟩ p.Rect = true
  · by_cases huv : u = x ∧ v = y
    · obtain ⟨rfl, rfl⟩ := huv
      simp [Image.Set, Image.RGBAAt, hin]
    · simp [Image.Set, Image.RGBAAt, hin, huv]
  · simp [Image.Set, Image.RGBAAt, hin]

theorem Point.In_iff (p : Point) (r : Rectangle) :
    p.In r = true ↔ r.Min.X ≤ p.X ∧ p.X < r.Max.X ∧ r.Min.Y ≤ p.Y ∧ p.Y < r.Max.Y := by
  simp [Point.In, and_assoc]

theorem Rect_of_le (x0 y0 x1 y1 : Int) (hx : x0 ≤ x1) (hy : y0 ≤ y1) :
    Rect x0 y0 x1 y1 = ⟨⟨x0, y0⟩, ⟨x1, y1⟩⟩ := by
  have hx2 : ¬ x0 > x1 := by omega
  have hy2 : ¬ y0 > y1 := by omega
  simp [Rect, hx2, hy2]

/-! ## `DrawCursor` -/

theorem uint16_sum_exact (c : RGBA) :
    ((uint16 c.R + uint16 c.G) % 65536 + uint16 c.B) % 65536 = c.R.val + c.G.val + c.B.val := by
  have hR := c.R.isLt
  have hG := c.G.isLt
  have hB := c.B.isLt
  unfold uint16
  omega

theorem ImageBuffer.DrawCursor_Canvas (i : ImageBuffer) (sel : RGBA) :
    (i.DrawCursor sel).Canvas = i.Canvas := rfl

theorem ImageBuffer.DrawCursor_CursorPos (i : ImageBuffer) (sel : RGBA) :
    (i.DrawCursor sel).CursorPos = i.CursorPos := rfl

theorem ImageBuffer.DrawCursor_Overlay_Rect (i : ImageBuffer) (sel : RGBA) :
    (i.DrawCursor sel).Overlay.Rect = i.Overlay.Rect := by
  simp [ImageBuffer.DrawCursor, Image.Set_Rect]

/-- Reading the overlay after `DrawCursor`: the fill pixel, the border pixel,
or what was there. -/
theorem ImageBuffer.DrawCursor_Overlay_RGBAAt (i : ImageBuffer) (sel : RGBA) (u v : Int) :
    (i.DrawCursor sel).Overlay.RGBAAt u v =
      if Point.In ⟨i.CursorPos.X * 3 + 1, i.CursorPos.Y * 3 + 1⟩ i.Overlay.Rect = true ∧
          u = i.CursorPos.X * 3 + 1 ∧ v = i.CursorPos.Y * 3 + 1 then sel
      else if Point.In ⟨i.CursorPos.X * 3, i.CursorPos.Y * 3⟩ i.Overlay.Rect = true ∧
          u = i.CursorPos.X * 3 ∧ v = i.CursorPos.Y * 3 then
        (if (i.Canvas.RGBAAt i.CursorPos.X i.CursorPos.Y).R.val +
              (i.Canvas.RGBAAt i.CursorPos.X i.CursorPos.Y).G.val +
              (i.Canvas.RGBAAt i.CursorPos.X i.CursorPos.Y).B.val < 384 then
          ⟨255, 255, 255, 255⟩
        else ⟨0, 0, 0, 255⟩)
      else i.Overlay.RGBAAt u v := by
  simp only [ImageBuffer.DrawCursor, Image.RGBAAt_Set, Image.Set_Rect, rgbaModel_rgba,
    rgbaModel_rgbaPtr, uint16_sum_exact]

/-- Under the buffer invariants both pixels `DrawCursor` writes lie inside the
overlay. -/
theorem ImageBuffer.decoration_In (i : ImageBuffer) (h0 : i.CanvasAtOrigin)
    (h3 : i.OverlayScaled) (hc : i.CursorInBounds) :
    Point.In ⟨i.CursorPos.X * 3, i.CursorPos.Y * 3⟩ i.Overlay.Rect = true ∧
      Point.In ⟨i.CursorPos.X * 3 + 1, i.CursorPos.Y * 3 + 1⟩ i.Overlay.Rect = true := by
  unfold ImageBuffer.CanvasAtOrigin at h0
  unfold ImageBuffer.OverlayScaled at h3
  unfold ImageBuffer.CursorInBounds at hc
  rw [Point.In_iff] at hc
  have hx : i.Canvas.Bounds.Min.X = 0 := by rw [h0]
  have hy : i.Canvas.Bounds.Min.Y = 0 := by rw [h0]
  have hdx : (0 : Int) ≤ i.Canvas.Bounds.Dx * 3 := by
    unfold Rectangle.Dx; omega
  have hdy : (0 : Int) ≤ i.Canvas.Bounds.Dy * 3 := by
    unfold Rectangle.Dy; omega
  rw [h3, Rect_of_le 0 0 _ _ hdx hdy]
  simp only [Point.In_iff, Rectangle.Dx, Rectangle.Dy]
  omega

/-! ## Claims about `DrawCursor` -/

/-- C3: the border pixel `DrawCursor` writes depends on the channel sum of
the canvas pixel `(R, G, B, A)` under the cursor only.  It is opaque white when
`R + G + B < 384` and opaque black when `R + G + B ≥ 384`, whatever `A` and the
selected colour are; the 16-bit sum the code computes is the exact sum; in
particular the border is white at sum 383 and black at sum 384. -/
theorem DrawCursor_border_colour (i : ImageBuffer) (sel : RGBA) (R G B A : Fin 256)
    (hpix : i.Canvas.RGBAAt i.CursorPos.X i.CursorPos.Y = ⟨R, G, B, A⟩)
    (hin : Point.In ⟨i.CursorPos.X * 3, i.CursorPos.Y * 3⟩ i.Overlay.Rect = true) :
    ((uint16 R + uint16 G) % 65536 + uint16 B) % 65536 = R.val + G.val + B.val ∧
    (R.val + G.val + B.val < 384 →
      (i.DrawCursor sel).Overlay.RGBAAt (i.CursorPos.X * 3) (i.CursorPos.Y * 3)
        = ⟨255, 255, 255, 255⟩) ∧
    (384 ≤ R.val + G.val + B.val →
      (i.DrawCursor sel).Overlay.RGBAAt (i.CursorPos.X * 3) (i.CursorPos.Y * 3)
        = ⟨0, 0, 0, 255⟩) ∧
    (R.val + G.val + B.val = 383 →
      (i.DrawCursor sel).Overlay.RGBAAt (i.CursorPos.X * 3) (i.CursorPos.Y * 3)
        = ⟨255, 255, 255, 255⟩) ∧
    (R.val + G.val + B.val = 384 →
      (i.DrawCursor sel).Overlay.RGBAAt (i.CursorPos.X * 3) (i.CursorPos.Y * 3)
        = ⟨0, 0, 0, 255⟩) := by
  have hne : ¬ (i.CursorPos.X * 3 = i.CursorPos.X * 3 + 1 ∧
      i.CursorPos.Y * 3 = i.CursorPos.Y * 3 + 1) := by omega
  have key : (i.DrawCursor sel).Overlay.RGBAAt (i.CursorPos.X * 3) (i.CursorPos.Y * 3) =
      if R.val + G.val + B.val < 384 then ⟨255, 255, 255, 255⟩ else ⟨0, 0, 0, 255⟩ := by
    rw [ImageBuffer.DrawCursor_Overlay_RGBAAt, hpix]
    simp [hin, hne]
  refine ⟨uint16_sum_exact ⟨R, G, B, A⟩, ?_, ?_, ?_, ?_⟩
  · intro h
    rw [key, if_pos h]
  · intro h
    rw [key, if_neg (by omega)]
  · intro h
    rw [key, if_pos (by omega)]
  · intro h
    rw [key, if_neg (by omega)]

/-- C3 at the boundary: in `greyBuffer` the pixel under the cursor has the
channel sum 383 and the border drawn is white. -/
theorem DrawCursor_border_colour_witness :
    greyBuffer.Canvas.RGBAAt greyBuffer.CursorPos.X greyBuffer.CursorPos.Y
        = ⟨128, 128, 127, 255⟩ ∧
    Point.In ⟨greyBuffer.CursorPos.X * 3, greyBuffer.CursorPos.Y * 3⟩
        greyBuffer.Overlay.Rect = true ∧
    (greyBuffer.DrawCursor red).Overlay.RGBAAt (greyBuffer.CursorPos.X * 3)
        (greyBuffer.CursorPos.Y * 3) = ⟨255, 255, 255, 255⟩ :=
  ⟨by decide, by decide,
    (DrawCursor_border_colour greyBuffer red 128 128 127 255 (by decide) (by decide)).2.2.2.1
      (by decide)⟩

/-- The border at the threshold, on `greyBuffer`: under the cursor `(0, 0)` the
channel sum is 383 and the border is white; moved to `(1, 0)`, where the sum is
384 (and alpha is 7), the border is black. -/
theorem DrawCursor_border_at_threshold :
    (greyBuffer.DrawCursor red).Overlay.RGBAAt 0 0 = ⟨255, 255, 255, 255⟩ ∧
    (greyBuffer.MoveCursor red 1 0).Overlay.RGBAAt 3 0 = ⟨0, 0, 0, 255⟩ := by
  decide

/-- C5: for a buffer whose canvas has origin `(0, 0)`, whose overlay is three
times the canvas and whose cursor `(x, y)` is in bounds, both writes of
`DrawCursor` land inside the overlay; afterwards the overlay pixel `(3x, 3y)`
is the border colour, the pixel `(3x+1, 3y+1)` is the selected colour, every
other overlay pixel reads as before, and the overlay bounds, the canvas and the
cursor position are unchanged. -/
theorem DrawCursor_writes_two_pixels (i : ImageBuffer) (sel : RGBA)
    (h0 : i.CanvasAtOrigin) (h3 : i.OverlayScaled) (hc : i.CursorInBounds) :
    Point.In ⟨i.CursorPos.X * 3, i.CursorPos.Y * 3⟩ i.Overlay.Rect = true ∧
    Point.In ⟨i.CursorPos.X * 3 + 1, i.CursorPos.Y * 3 + 1⟩ i.Overlay.Rect = true ∧
    (i.DrawCursor sel).Overlay.RGBAAt (i.CursorPos.X * 3) (i.CursorPos.Y * 3) =
      (if (i.Canvas.RGBAAt i.CursorPos.X i.CursorPos.Y).R.val +
            (i.Canvas.RGBAAt i.CursorPos.X i.CursorPos.Y).G.val +
            (i.Canvas.RGBAAt i.CursorPos.X i.CursorPos.Y).B.val < 384 then
        ⟨255, 255, 255, 255⟩
      else ⟨0, 0, 0, 255⟩) ∧
    (i.DrawCursor sel).Overlay.RGBAAt (i.CursorPos.X * 3 + 1) (i.CursorPos.Y * 3 + 1) = sel ∧
    (∀ u v : Int, ¬ (u = i.CursorPos.X * 3 ∧ v = i.CursorPos.Y * 3) →
      ¬ (u = i.CursorPos.X * 3 + 1 ∧ v = i.CursorPos.Y * 3 + 1) →
      (i.DrawCursor sel).Overlay.RGBAAt u v = i.Overlay.RGBAAt u v) ∧
    (i.DrawCursor sel).Overlay.Rect = i.Overlay.Rect ∧
    (i.DrawCursor sel).Canvas = i.Canvas ∧
    (i.DrawCursor sel).CursorPos = i.CursorPos := by
  obtain ⟨hb, hf⟩ := i.decoration_In h0 h3 hc
  have hne : ¬ (i.CursorPos.X * 3 = i.CursorPos.X * 3 + 1 ∧
      i.CursorPos.Y * 3 = i.CursorPos.Y * 3 + 1) := by omega
  refine ⟨hb, hf, ?_, ?_, ?_, i.DrawCursor_Overlay_Rect sel, rfl, rfl⟩
  · rw [ImageBuffer.DrawCursor_Overlay_RGBAAt]
    simp [hb, hne]
  · rw [ImageBuffer.DrawCursor_Overlay_RGBAAt]
    simp [hf]
  · intro u v h1 h2
    rw [ImageBuffer.DrawCursor_Overlay_RGBAAt]
    simp [h1, h2]

/-- C5 on `greyBuffer` with the selected colour red: the fill pixel `(1, 1)`
becomes red. -/
theorem DrawCursor_writes_two_pixels_witness :
    greyBuffer.CanvasAtOrigin ∧ greyBuffer.OverlayScaled ∧ greyBuffer.CursorInBounds ∧
    (greyBuffer.DrawCursor red).Overlay.RGBAAt (greyBuffer.CursorPos.X * 3 + 1)
        (greyBuffer.CursorPos.Y * 3 + 1) = red :=
  ⟨by decide, by decide, by decide,
    (DrawCursor_writes_two_pixels greyBuffer red (by decide) (by decide) (by decide)).2.2.2.1⟩

/-! ## Claims about `MoveCursor` -/

theorem ImageBuffer.MoveCursor_CursorPos (i : ImageBuffer) (sel : RGBA) (x y : Int) :
    (i.MoveCursor sel x y).CursorPos = ⟨x, y⟩ := rfl

theorem ImageBuffer.MoveCursor_Canvas (i : ImageBuffer) (sel : RGBA) (x y : Int) :
    (i.MoveCursor sel x y).Canvas = i.Canvas := rfl

theorem ImageBuffer.MoveCursor_Overlay_Rect (i : ImageBuffer) (sel : RGBA) (x y : Int) :
    (i.MoveCursor sel x y).Overlay.Rect = i.Overlay.Rect := by
  simp [ImageBuffer.MoveCursor, ImageBuffer.DrawCursor, Image.Set_Rect]

/-- Reading the overlay after `MoveCursor`: the new decoration, the two cleared
pixels of the old one, or what was there. -/
theorem ImageBuffer.MoveCursor_Overlay_RGBAAt (i : ImageBuffer) (sel : RGBA)
    (x y u v : Int) :
    (i.MoveCursor sel x y).Overlay.RGBAAt u v =
      if Point.In ⟨x * 3 + 1, y * 3 + 1⟩ i.Overlay.Rect = true ∧
          u = x * 3 + 1 ∧ v = y * 3 + 1 then sel
      else if Point.In ⟨x * 3, y * 3⟩ i.Overlay.Rect = true ∧ u = x * 3 ∧ v = y * 3 then
        (if (i.Canvas.RGBAAt x y).R.val + (i.Canvas.RGBAAt x y).G.val +
              (i.Canvas.RGBAAt x y).B.val < 384 then
          ⟨255, 255, 255, 255⟩
        else ⟨0, 0, 0, 255⟩)
      else if Point.In ⟨i.CursorPos.X * 3 + 1, i.CursorPos.Y * 3 + 1⟩ i.Overlay.Rect = true ∧
          u = i.CursorPos.X * 3 + 1 ∧ v = i.CursorPos.Y * 3 + 1 then ⟨0, 0, 0, 0⟩
      else if Point.In ⟨i.CursorPos.X * 3, i.CursorPos.Y * 3⟩ i.Overlay.Rect = true ∧
          u = i.CursorPos.X * 3 ∧ v = i.CursorPos.Y * 3 then ⟨0, 0, 0, 0⟩
      else i.Overlay.RGBAAt u v := by
  unfold ImageBuffer.MoveCursor
  simp only [ImageBuffer.DrawCursor_Overlay_RGBAAt, Image.RGBAAt_Set, Image.Set_Rect,
    rgbaModel_Transparent]

/-- C4, amended: for a buffer whose canvas has origin `(0, 0)`, whose overlay
is three times the canvas, whose cursor `P` is in bounds and whose overlay is
transparent everywhere except possibly at the border pixel and the fill pixel
of `P`, after `MoveCursor` to an adjacent in-bounds position `Q` every overlay
pixel of the 3x3 cell of `P` is transparent, the cursor position is `Q`, and
every overlay pixel other than the border pixel `(3 Q.x, 3 Q.y)` and the fill
pixel `(3 Q.x + 1, 3 Q.y + 1)` is transparent.  Those two pixels hold the
border colour for the canvas pixel at `Q` and the selected colour. -/
theorem MoveCursor_single_decoration (i : ImageBuffer) (sel : RGBA) (x y : Int)
    (h0 : i.CanvasAtOrigin) (h3 : i.OverlayScaled) (hc : i.CursorInBounds)
    (hclean : ∀ u v : Int, ¬ (u = i.CursorPos.X * 3 ∧ v = i.CursorPos.Y * 3) →
      ¬ (u = i.CursorPos.X * 3 + 1 ∧ v = i.CursorPos.Y * 3 + 1) →
      i.Overlay.RGBAAt u v = ⟨0, 0, 0, 0⟩)
    (hadj : i.CursorPos.Adjacent ⟨x, y⟩)
    (hq : Point.In ⟨x, y⟩ i.Canvas.Bounds = true) :
    (∀ u v : Int, i.CursorPos.X * 3 ≤ u → u < i.CursorPos.X * 3 + 3 →
      i.CursorPos.Y * 3 ≤ v → v < i.CursorPos.Y * 3 + 3 →
      (i.MoveCursor sel x y).Overlay.RGBAAt u v = ⟨0, 0, 0, 0⟩) ∧
    (i.MoveCursor sel x y).CursorPos = ⟨x, y⟩ ∧
    (∀ u v : Int, ¬ (u = x * 3 ∧ v = y * 3) → ¬ (u = x * 3 + 1 ∧ v = y * 3 + 1) →
      (i.MoveCursor sel x y).Overlay.RGBAAt u v = ⟨0, 0, 0, 0⟩) ∧
    (i.MoveCursor sel x y).Overlay.RGBAAt (x * 3) (y * 3) =
      (if (i.Canvas.RGBAAt x y).R.val + (i.Canvas.RGBAAt x y).G.val +
            (i.Canvas.RGBAAt x y).B.val < 384 then
        ⟨255, 255, 255, 255⟩
      else ⟨0, 0, 0, 255⟩) ∧
    (i.MoveCursor sel x y).Overlay.RGBAAt (x * 3 + 1) (y * 3 + 1) = sel := by
  obtain ⟨hb, hf⟩ := i.decoration_In h0 h3 hc
  obtain ⟨hqb, hqf⟩ :=
    ImageBuffer.decoration_In ⟨i.Canvas, i.Overlay, ⟨x, y⟩⟩ h0 h3 hq
  simp only at hqb hqf
  have hqne : ¬ (x * 3 = x * 3 + 1 ∧ y * 3 = y * 3 + 1) := by omega
  have hall : ∀ u v : Int, ¬ (u = x * 3 ∧ v = y * 3) → ¬ (u = x * 3 + 1 ∧ v = y * 3 + 1) →
      (i.MoveCursor sel x y).Overlay.RGBAAt u v = ⟨0, 0, 0, 0⟩ := by
    intro u v h1 h2
    rw [ImageBuffer.MoveCursor_Overlay_RGBAAt]
    simp only [h1, h2, and_false, if_false, hb, hf, true_and]
    by_cases h4 : u = i.CursorPos.X * 3 + 1 ∧ v = i.CursorPos.Y * 3 + 1
    · rw [if_pos h4]
    · rw [if_neg h4]
      by_cases h5 : u = i.CursorPos.X * 3 ∧ v = i.CursorPos.Y * 3
      · rw [if_pos h5]
      · rw [if_neg h5]
        exact hclean u v h5 h4
  refine ⟨?_, rfl, hall, ?_, ?_⟩
  · intro u v hu1 hu2 hv1 hv2
    apply hall
    · unfold Point.Adjacent at hadj
      simp only at hadj
      omega
    · unfold Point.Adjacent at hadj
      simp only at hadj
      omega
  · rw [ImageBuffer.MoveCursor_Overlay_RGBAAt]
    simp [hqb, hqne]
  · rw [ImageBuffer.MoveCursor_Overlay_RGBAAt]
    simp [hqf]

/-- C4, amended, on `greyBuffer` after a first `DrawCursor`: moving the cursor
from `(0, 0)` to `(1, 0)` leaves the old cell transparent. -/
theorem MoveCursor_single_decoration_witness :
    (greyBuffer.DrawCursor red).CanvasAtOrigin ∧
    (greyBuffer.DrawCursor red).OverlayScaled ∧
    (greyBuffer.DrawCursor red).CursorInBounds ∧
    (greyBuffer.DrawCursor red).CursorPos.Adjacent ⟨1, 0⟩ ∧
    Point.In ⟨1, 0⟩ (greyBuffer.DrawCursor red).Canvas.Bounds = true ∧
    ((greyBuffer.DrawCursor red).MoveCursor red 1 0).Overlay.RGBAAt 1 1 = ⟨0, 0, 0, 0⟩ ∧
    ((greyBuffer.DrawCursor red).MoveCursor red 1 0).CursorPos = ⟨1, 0⟩ :=
  have h := MoveCursor_single_decoration (greyBuffer.DrawCursor red) red 1 0
    (by decide) (by decide) (by decide)
    (by
      intro u v h1 h2
      rw [ImageBuffer.DrawCursor_Overlay_RGBAAt]
      have e1 : greyBuffer.CursorPos = ⟨0, 0⟩ := by decide
      rw [ImageBuffer.DrawCursor_CursorPos, e1] at h1 h2
      rw [e1]
      simp only [h1, h2, and_false, if_false]
      simp [Image.RGBAAt, greyBuffer, NewImageBuffer, NewRGBA])
    (by decide) (by decide)
  ⟨by decide, by decide, by decide, by decide, by decide,
    h.1 1 1 (by decide) (by decide) (by decide) (by decide), h.2.1⟩

/-- C4 as stated fails: `strayBuffer` meets every hypothesis of the claim (its
overlay is transparent outside the 3x3 cell of the cursor `P = (0, 0)`), yet
after `MoveCursor` to the adjacent position `(1, 0)` the pixel `(2, 2)` of the
cell of `P` is still opaque white. -/
theorem MoveCursor_single_decoration_counterexample :
    strayBuffer.CanvasAtOrigin ∧ strayBuffer.OverlayScaled ∧ strayBuffer.CursorInBounds ∧
    (∀ u v : Int,
      ¬ (strayBuffer.CursorPos.X * 3 ≤ u ∧ u < strayBuffer.CursorPos.X * 3 + 3 ∧
          strayBuffer.CursorPos.Y * 3 ≤ v ∧ v < strayBuffer.CursorPos.Y * 3 + 3) →
      strayBuffer.Overlay.RGBAAt u v = ⟨0, 0, 0, 0⟩) ∧
    strayBuffer.CursorPos.Adjacent ⟨1, 0⟩ ∧
    Point.In ⟨1, 0⟩ strayBuffer.Canvas.Bounds = true ∧
    ¬ (∀ u v : Int, strayBuffer.CursorPos.X * 3 ≤ u → u < strayBuffer.CursorPos.X * 3 + 3 →
      strayBuffer.CursorPos.Y * 3 ≤ v → v < strayBuffer.CursorPos.Y * 3 + 3 →
      (strayBuffer.MoveCursor red 1 0).Overlay.RGBAAt u v = ⟨0, 0, 0, 0⟩) := by
  refine ⟨by decide, by decide, by decide, ?_, by decide, by decide, ?_⟩
  · intro u v h
    have hne : ¬ (u = 2 ∧ v = 2) := by
      intro h2
      apply h
      simp [strayBuffer, h2.1, h2.2]
    simp [Image.RGBAAt, strayBuffer, hne]
  · intro h
    have h2 := h 2 2 (by decide) (by decide) (by decide) (by decide)
    revert h2
    decide

/-- Under the buffer invariants the fill pixel reads as the selected colour
after `DrawCursor`. -/
theorem DrawCursor_fill_pixel (i : ImageBuffer) (sel : RGBA)
    (h0 : i.CanvasAtOrigin) (h3 : i.OverlayScaled) (hc : i.CursorInBounds) :
    (i.DrawCursor sel).Overlay.RGBAAt (i.CursorPos.X * 3 + 1) (i.CursorPos.Y * 3 + 1) = sel := by
  obtain ⟨_, hf⟩ := i.decoration_In h0 h3 hc
  rw [ImageBuffer.DrawCursor_Overlay_RGBAAt]
  simp [hf]

/-! ## Writing twice -/

theorem Image.Set_Pix (p : Image) (x y : Int) (c : Color) (u v : Int) :
    (p.Set x y c).Pix u v =
      if Point.In ⟨x, y⟩ p.Rect = true ∧ u = x ∧ v = y then rgbaModel c else p.Pix u v := by
  by_cases hin : Point.In ⟨x, y⟩ p.Rect = true
  · by_cases huv : u = x ∧ v = y
    · simp [Image.Set, hin, huv]
    · simp [Image.Set, hin, huv]
  · simp [Image.Set, hin]

theorem Image.ext_of (p q : Image) (hR : p.Rect = q.Rect)
    (hP : ∀ u v, p.Pix u v = q.Pix u v) : p = q := by
  cases p
  cases q
  simp only at hR hP
  subst hR
  congr
  funext u v
  exact hP u v

/-- Storing the same colour at the same place twice is storing it once. -/
theorem Image.Set_Set_self (p : Image) (x y : Int) (c : Color) :
    (p.Set x y c).Set x y c = p.Set x y c := by
  apply Image.ext_of
  · simp [Image.Set_Rect]
  · intro u v
    simp only [Image.Set_Pix, Image.Set_Rect]
    split <;> simp_all

/-- Storing the same two colours at the same two places twice is storing them
once. -/
theorem Image.Set_pair_twice (p : Image) (x y x2 y2 : Int) (c c2 : Color) :
    (((p.Set x y c).Set x2 y2 c2).Set x y c).Set x2 y2 c2 = (p.Set x y c).Set x2 y2 c2 := by
  apply Image.ext_of
  · simp [Image.Set_Rect]
  · intro u v
    simp only [Image.Set_Pix, Image.Set_Rect]
    split
    · simp_all
    · split <;> simp_all

/-- Drawing the cursor twice with the same colour is drawing it once. -/
theorem ImageBuffer.DrawCursor_DrawCursor (i : ImageBuffer) (sel : RGBA) :
    (i.DrawCursor sel).DrawCursor sel = i.DrawCursor sel := by
  simp only [ImageBuffer.DrawCursor, Image.Set_pair_twice]

/-! ## The key handler -/

theorem appState.getElem?_setBuffer (state : appState) (k j : Nat) (b nb : ImageBuffer)
    (hk : state.buffers[k]? = some b) :
    (state.setBuffer k nb).buffers[j]? = if j = k then some nb else state.buffers[j]? := by
  have hlt : k < state.buffers.length := by
    rcases List.getElem?_eq_some.mp hk with ⟨h, _⟩
    exact h
  unfold appState.setBuffer
  simp only [List.getElem?_set, hlt, if_true]
  by_cases h : j = k
  · simp [h]
  · have h2 : ¬ k = j := fun e => h e.symm
    simp [h, h2]

theorem appState.setBuffer_length (state : appState) (k : Nat) (nb : ImageBuffer) :
    (state.setBuffer k nb).buffers.length = state.buffers.length := by
  simp [appState.setBuffer]

theorem appState.redrawCursors_getElem? (a : appState) (j : Nat) :
    a.redrawCursors.buffers[j]? =
      (a.buffers[j]?).map (fun k => k.DrawCursor a.currentColor) := by
  simp [appState.redrawCursors]

theorem onTypedKey_none (state : appState) (k : Nat) (e : KeyEvent)
    (hk : state.buffers[k]? = none) : onTypedKey state k e = state := by
  simp [onTypedKey, hk]

/-- Every key but `N` keeps the number of open buffers. -/
theorem onTypedKey_length (state : appState) (k : Nat) (e : KeyEvent) (hN : e ≠ .N) :
    (onTypedKey state k e).buffers.length = state.buffers.length := by
  cases hk : state.buffers[k]? with
  | none => rw [onTypedKey_none state k e hk]
  | some imBuf =>
    cases e with
    | N => exact absurd rfl hN
    | C picked =>
      cases picked with
      | none => simp [onTypedKey, hk]
      | some c =>
        obtain ⟨r, g, b, a⟩ := c
        simp [onTypedKey, hk, appState.redrawCursors]
    | Y => simp [onTypedKey, hk, appState.redrawCursors]
    | Space => simp [onTypedKey, hk, appState.setBuffer]
    | Up => simp only [onTypedKey, hk]; split <;> simp [appState.setBuffer]
    | Down => simp only [onTypedKey, hk]; split <;> simp [appState.setBuffer]
    | Left => simp only [onTypedKey, hk]; split <;> simp [appState.setBuffer]
    | Right => simp only [onTypedKey, hk]; split <;> simp [appState.setBuffer]

/-- Replacing the buffer of window `k` by one with the same canvas bounds,
the same overlay bounds and a cursor in bounds keeps every buffer's bounds, and
every cursor that was in bounds in bounds. -/
theorem appState.setBuffer_preserves (state : appState) (k j : Nat)
    (imBuf nb b : ImageBuffer) (hk : state.buffers[k]? = some imBuf)
    (hj : state.buffers[j]? = some b)
    (hB : nb.Canvas.Bounds = imBuf.Canvas.Bounds)
    (hO : nb.Overlay.Rect = imBuf.Overlay.Rect)
    (hnb : imBuf.CursorInBounds → nb.CursorInBounds) :
    ∃ b1, (state.setBuffer k nb).buffers[j]? = some b1 ∧
      b1.Canvas.Bounds = b.Canvas.Bounds ∧ b1.Overlay.Rect = b.Overlay.Rect ∧
      (b.CursorInBounds → b1.CursorInBounds) := by
  rw [appState.getElem?_setBuffer state k j imBuf nb hk]
  by_cases hjk : j = k
  · subst hjk
    rw [hk] at hj
    cases hj
    exact ⟨nb, by simp, hB, hO, hnb⟩
  · exact ⟨b, by simp [hjk, hj], rfl, rfl, id⟩

theorem ImageBuffer.MoveCursor_CursorInBounds (i : ImageBuffer) (sel : RGBA) (x y : Int)
    (h : Point.In ⟨x, y⟩ i.Canvas.Bounds = true) : (i.MoveCursor sel x y).CursorInBounds :=
  h

/-- A key event keeps the canvas bounds and the overlay bounds of every open
buffer as they are, and a cursor that is in bounds in bounds. -/
theorem onTypedKey_rects (state : appState) (k : Nat) (e : KeyEvent) (j : Nat)
    (b : ImageBuffer) (hj : state.buffers[j]? = some b) :
    ∃ b1, (onTypedKey state k e).buffers[j]? = some b1 ∧
      b1.Canvas.Bounds = b.Canvas.Bounds ∧ b1.Overlay.Rect = b.Overlay.Rect ∧
      (b.CursorInBounds → b1.CursorInBounds) := by
  cases hk : state.buffers[k]? with
  | none =>
    rw [onTypedKey_none state k e hk]
    exact ⟨b, hj, rfl, rfl, id⟩
  | some imBuf =>
    have hredraw : ∀ a : appState, a.buffers = state.buffers →
        ∃ b1, a.redrawCursors.buffers[j]? = some b1 ∧
          b1.Canvas.Bounds = b.Canvas.Bounds ∧ b1.Overlay.Rect = b.Overlay.Rect ∧
          (b.CursorInBounds → b1.CursorInBounds) := by
      intro a ha
      rw [appState.redrawCursors_getElem?, ha, hj]
      exact ⟨_, rfl, rfl, ImageBuffer.DrawCursor_Overlay_Rect _ _, fun h => h⟩
    cases e with
    | Up =>
      simp only [onTypedKey, hk]
      split
      · rename_i hg
        refine appState.setBuffer_preserves state k j imBuf _ b hk hj rfl
          (ImageBuffer.MoveCursor_Overlay_Rect _ _ _ _) ?_
        intro hc
        apply ImageBuffer.MoveCursor_CursorInBounds
        unfold ImageBuffer.CursorInBounds at hc
        rw [Point.In_iff] at hc ⊢
        simp only
        omega
      · exact ⟨b, hj, rfl, rfl, id⟩
    | Down =>
      simp only [onTypedKey, hk]
      split
      · rename_i hg
        refine appState.setBuffer_preserves state k j imBuf _ b hk hj rfl
          (ImageBuffer.MoveCursor_Overlay_Rect _ _ _ _) ?_
        intro hc
        apply ImageBuffer.MoveCursor_CursorInBounds
        unfold ImageBuffer.CursorInBounds at hc
        rw [Point.In_iff] at hc ⊢
        simp only
        omega
      · exact ⟨b, hj, rfl, rfl, id⟩
    | Left =>
      simp only [onTypedKey, hk]
      split
      · rename_i hg
        refine appState.setBuffer_preserves state k j imBuf _ b hk hj rfl
          (ImageBuffer.MoveCursor_Overlay_Rect _ _ _ _) ?_
        intro hc
        apply ImageBuffer.MoveCursor_CursorInBounds
        unfold ImageBuffer.CursorInBounds at hc
        rw [Point.In_iff] at hc ⊢
        simp only
        omega
      · exact ⟨b, hj, rfl, rfl, id⟩
    | Right =>
      simp only [onTypedKey, hk]
      split
      · rename_i hg
        refine appState.setBuffer_preserves state k j imBuf _ b hk hj rfl
          (ImageBuffer.MoveCursor_Overlay_Rect _ _ _ _) ?_
        intro hc
        apply ImageBuffer.MoveCursor_CursorInBounds
        unfold ImageBuffer.CursorInBounds at hc
        rw [Point.In_iff] at hc ⊢
        simp only
        omega
      · exact ⟨b, hj, rfl, rfl, id⟩
    | Y =>
      simp only [onTypedKey, hk]
      exact hredraw _ rfl
    | Space =>
      simp only [onTypedKey, hk]
      refine appState.setBuffer_preserves state k j imBuf _ b hk hj ?_
        (ImageBuffer.DrawCursor_Overlay_Rect _ _) ?_
      · simp [ImageBuffer.DrawCursor_Canvas, Image.Bounds, Image.Set_Rect]
      · intro hc
        unfold ImageBuffer.CursorInBounds at hc ⊢
        simpa [ImageBuffer.DrawCursor_Canvas, ImageBuffer.DrawCursor_CursorPos, Image.Bounds,
          Image.Set_Rect] using hc
    | C picked =>
      cases picked with
      | none =>
        simp only [onTypedKey, hk]
        exact ⟨b, hj, rfl, rfl, id⟩
      | some c =>
        obtain ⟨r, g, b2, a⟩ := c
        simp only [onTypedKey, hk]
        exact hredraw _ rfl
    | N =>
      simp only [onTypedKey, hk, openWindow]
      have hlt : j < state.buffers.length := by
        rcases List.getElem?_eq_some.mp hj with ⟨h, _⟩
        exact h
      rw [List.getElem?_append_left hlt]
      exact ⟨b, hj, rfl, rfl, id⟩

/-- A key event keeps a cursor that is in bounds in bounds, and the canvas
bounds and the overlay bounds as they are. -/
theorem onTypedKey_preserves (state : appState) (k : Nat) (e : KeyEvent) (j : Nat)
    (b : ImageBuffer) (hj : state.buffers[j]? = some b) (hin : b.CursorInBounds) :
    ∃ b1, (onTypedKey state k e).buffers[j]? = some b1 ∧
      b1.Canvas.Bounds = b.Canvas.Bounds ∧ b1.Overlay.Rect = b.Overlay.Rect ∧
      b1.CursorInBounds := by
  obtain ⟨b1, hb1, hB, hO, hc⟩ := onTypedKey_rects state k e j b hj
  exact ⟨b1, hb1, hB, hO, hc hin⟩

/-- A buffer a key event adds to the open buffers has its cursor in bounds,
its canvas at the origin and its overlay three times the canvas. -/
theorem onTypedKey_new_buffer (state : appState) (k : Nat) (e : KeyEvent) (j : Nat)
    (b1 : ImageBuffer) (hj : (onTypedKey state k e).buffers[j]? = some b1)
    (hnew : state.buffers.length ≤ j) :
    b1.CursorInBounds ∧ b1.CanvasAtOrigin ∧ b1.OverlayScaled := by
  by_cases hN : e = .N
  · subst hN
    cases hk : state.buffers[k]? with
    | none =>
      rw [onTypedKey_none state k _ hk, List.getElem?_eq_none hnew] at hj
      cases hj
    | some imBuf =>
      simp only [onTypedKey, hk, openWindow] at hj
      rw [List.getElem?_append_right hnew] at hj
      cases hd : j - state.buffers.length with
      | zero =>
        rw [hd] at hj
        simp only [List.getElem?_cons_zero] at hj
        cases hj
        refine ⟨(by decide : (NewImageBuffer (NewRGBA (Rect 0 0 50 50))).CursorInBounds),
          (by decide : (NewImageBuffer (NewRGBA (Rect 0 0 50 50))).CanvasAtOrigin), ?_⟩
        unfold ImageBuffer.OverlayScaled
        rw [ImageBuffer.DrawCursor_Overlay_Rect]
        exact (by decide : (NewImageBuffer (NewRGBA (Rect 0 0 50 50))).OverlayScaled)
      | succ n =>
        rw [hd] at hj
        simp at hj
  · have hlen := onTypedKey_length state k e hN
    rw [List.getElem?_eq_none (by omega)] at hj
    cases hj

/-- The buffer invariants hold for the buffer `NewImageBuffer` builds over a
non-empty canvas with origin `(0, 0)`, as `loadReader` and the key N allocate
it, also once `openWindow` has drawn its cursor. -/
theorem NewImageBuffer_invariants (im : Image) (sel : RGBA) (h0 : im.Bounds.Min = ⟨0, 0⟩)
    (hne : im.Bounds.Empty = false) :
    ((NewImageBuffer im).DrawCursor sel).CursorInBounds ∧
      ((NewImageBuffer im).DrawCursor sel).CanvasAtOrigin ∧
      ((NewImageBuffer im).DrawCursor sel).OverlayScaled := by
  refine ⟨?_, h0, ?_⟩
  · show Point.In im.Bounds.Min im.Bounds = true
    simp only [Rectangle.Empty, Bool.or_eq_false_iff, decide_eq_false_iff_not] at hne
    rw [Point.In_iff]
    omega
  · unfold ImageBuffer.OverlayScaled
    rw [ImageBuffer.DrawCursor_Overlay_Rect]
    rfl

/-- The buffer invariants (cursor in bounds, canvas at the origin, overlay
three times the canvas) are kept by every key event. -/
theorem onTypedKey_invariants (state : appState) (k : Nat) (e : KeyEvent)
    (hall : ∀ bj ∈ state.buffers,
      bj.CursorInBounds ∧ bj.CanvasAtOrigin ∧ bj.OverlayScaled) :
    ∀ bj ∈ (onTypedKey state k e).buffers,
      bj.CursorInBounds ∧ bj.CanvasAtOrigin ∧ bj.OverlayScaled := by
  intro bj hmem
  obtain ⟨j, hj⟩ := List.mem_iff_getElem?.mp hmem
  by_cases hlt : j < state.buffers.length
  · have hold : state.buffers[j]? = some (state.buffers[j]) := List.getElem?_eq_getElem hlt
    obtain ⟨hc, h0, h3⟩ := hall _ (List.getElem?_mem hold)
    obtain ⟨b1, hb1, hB, hO, hc1⟩ := onTypedKey_preserves state k e j _ hold hc
    rw [hj] at hb1
    cases hb1
    refine ⟨hc1, ?_, ?_⟩
    · unfold ImageBuffer.CanvasAtOrigin at h0 ⊢
      rw [hB]
      exact h0
    · unfold ImageBuffer.OverlayScaled at h3 ⊢
      rw [hB, hO]
      exact h3
  · exact onTypedKey_new_buffer state k e j bj hj (by omega)

/-- Every key event keeps each canvas at the origin and each overlay three
times its canvas. -/
theorem onTypedKey_rect_invariants (state : appState) (k : Nat) (e : KeyEvent)
    (hall : ∀ bj ∈ state.buffers, bj.CanvasAtOrigin ∧ bj.OverlayScaled) :
    ∀ bj ∈ (onTypedKey state k e).buffers, bj.CanvasAtOrigin ∧ bj.OverlayScaled := by
  intro bj hmem
  obtain ⟨j, hj⟩ := List.mem_iff_getElem?.mp hmem
  by_cases hlt : j < state.buffers.length
  · have hold : state.buffers[j]? = some (state.buffers[j]) := List.getElem?_eq_getElem hlt
    obtain ⟨h0, h3⟩ := hall _ (List.getElem?_mem hold)
    obtain ⟨b1, hb1, hB, hO, _⟩ := onTypedKey_rects state k e j _ hold
    rw [hj] at hb1
    cases hb1
    refine ⟨?_, ?_⟩
    · unfold ImageBuffer.CanvasAtOrigin at h0 ⊢
      rw [hB]
      exact h0
    · unfold ImageBuffer.OverlayScaled at h3 ⊢
      rw [hB, hO]
      exact h3
  · exact (onTypedKey_new_buffer state k e j bj hj (by omega)).2

/-- The buffer `loadReader` opens has its canvas at the origin and its overlay
three times the canvas. -/
theorem loadReader_new_buffer (state : appState) (m : Image)
    (hx : m.Bounds.Min.X ≤ m.Bounds.Max.X) (hy : m.Bounds.Min.Y ≤ m.Bounds.Max.Y) :
    ∃ nb, (loadReader state m).buffers = state.buffers ++ [nb] ∧
      nb.CanvasAtOrigin ∧ nb.OverlayScaled := by
  refine ⟨_, rfl, ?_, ?_⟩
  · show (Rect 0 0 m.Bounds.Dx m.Bounds.Dy).Min = ⟨0, 0⟩
    rw [Rect_of_le 0 0 _ _ (by unfold Rectangle.Dx; omega) (by unfold Rectangle.Dy; omega)]
  · unfold ImageBuffer.OverlayScaled
    rw [ImageBuffer.DrawCursor_Overlay_Rect]
    rfl

/-- In every state of the running program each open buffer has its canvas at
the origin and an overlay three times its canvas. -/
theorem Reachable.rect_invariants (state : appState) (h : Reachable state) :
    ∀ bj ∈ state.buffers, bj.CanvasAtOrigin ∧ bj.OverlayScaled := by
  induction h with
  | start =>
    intro bj hm
    cases hm
  | load state m hx hy _ ih =>
    intro bj hm
    obtain ⟨nb, hnb, h0, h3⟩ := loadReader_new_buffer state m hx hy
    rw [hnb, List.mem_append, List.mem_singleton] at hm
    rcases hm with hm | hm
    · exact ih bj hm
    · rw [hm]
      exact ⟨h0, h3⟩
  | key state k e _ ih => exact onTypedKey_rect_invariants state k e ih
  | close state k _ ih =>
    intro bj hm
    exact ih bj (List.mem_of_mem_eraseIdx hm)

/-! ## Claims about the cursor position -/

/-- C1: the cursor of a buffer built by `NewImageBuffer` over a non-empty
canvas starts inside the canvas bounds (`Min.X ≤ x < Max.X` and
`Min.Y ≤ y < Max.Y`), also once `openWindow` has drawn it; every key event
(Up, Down, Left, Right, Y, Space, C, N), in whichever window it is typed, leaves
the cursor of every open buffer that was inside its canvas bounds inside them,
the bounds being unchanged; and a buffer the event opens has its cursor in
bounds. -/
theorem cursor_in_bounds_invariant (im : Image) (hne : im.Bounds.Empty = false)
    (state : appState) (k : Nat) (e : KeyEvent) :
    (im.Bounds.Min.X ≤ (NewImageBuffer im).CursorPos.X ∧
      (NewImageBuffer im).CursorPos.X < im.Bounds.Max.X ∧
      im.Bounds.Min.Y ≤ (NewImageBuffer im).CursorPos.Y ∧
      (NewImageBuffer im).CursorPos.Y < im.Bounds.Max.Y) ∧
    (NewImageBuffer im).CursorInBounds ∧
    ((NewImageBuffer im).DrawCursor state.currentColor).CursorInBounds ∧
    (∀ (j : Nat) (b : ImageBuffer), state.buffers[j]? = some b → b.CursorInBounds →
      ∃ b1, (onTypedKey state k e).buffers[j]? = some b1 ∧
        b1.Canvas.Bounds = b.Canvas.Bounds ∧ b1.CursorInBounds) ∧
    (∀ (j : Nat) (b1 : ImageBuffer), (onTypedKey state k e).buffers[j]? = some b1 →
      state.buffers.length ≤ j → b1.CursorInBounds) := by
  have h1 : im.Bounds.Min.X ≤ (NewImageBuffer im).CursorPos.X ∧
      (NewImageBuffer im).CursorPos.X < im.Bounds.Max.X ∧
      im.Bounds.Min.Y ≤ (NewImageBuffer im).CursorPos.Y ∧
      (NewImageBuffer im).CursorPos.Y < im.Bounds.Max.Y := by
    simp only [Rectangle.Empty, Bool.or_eq_false_iff, decide_eq_false_iff_not] at hne
    simp only [NewImageBuffer]
    omega
  have h2 : (NewImageBuffer im).CursorInBounds := by
    unfold ImageBuffer.CursorInBounds
    rw [Point.In_iff]
    exact h1
  refine ⟨h1, h2, h2, ?_, fun j b1 hj hnew => (onTypedKey_new_buffer state k e j b1 hj hnew).1⟩
  intro j b hj hin
  obtain ⟨b1, hb1, hB, _, hc⟩ := onTypedKey_preserves state k e j b hj hin
  exact ⟨b1, hb1, hB, hc⟩

/-- C1 on `greyState`: the buffer built over the non-empty `greyCanvas` starts
in bounds and is still in bounds after Right. -/
theorem cursor_in_bounds_invariant_witness :
    greyCanvas.Bounds.Empty = false ∧ (NewImageBuffer greyCanvas).CursorInBounds ∧
    ∃ b1, (onTypedKey greyState 0 .Right).buffers[0]? = some b1 ∧
      b1.Canvas.Bounds = (greyBuffer.DrawCursor red).Canvas.Bounds ∧ b1.CursorInBounds :=
  ⟨by decide,
    (cursor_in_bounds_invariant greyCanvas (by decide) greyState 0 .Right).2.1,
    (cursor_in_bounds_invariant greyCanvas (by decide) greyState 0 .Right).2.2.2.1 0
      (greyBuffer.DrawCursor red) rfl (by decide)⟩

/-- The arrow keys on any canvas rectangle: with the cursor in bounds, each of
Up, Down, Left, Right moves the cursor to the cell one unit away when that cell
is within the canvas bounds and otherwise leaves the state as it is. -/
theorem arrow_keys_move_or_stay (state : appState) (k : Nat) (b : ImageBuffer)
    (hk : state.buffers[k]? = some b) (hin : b.CursorInBounds) :
    (Point.In ⟨b.CursorPos.X, b.CursorPos.Y - 1⟩ b.Canvas.Bounds = true →
      ∃ b1, (onTypedKey state k .Up).buffers[k]? = some b1 ∧
        b1.CursorPos = ⟨b.CursorPos.X, b.CursorPos.Y - 1⟩) ∧
    (Point.In ⟨b.CursorPos.X, b.CursorPos.Y - 1⟩ b.Canvas.Bounds = false →
      onTypedKey state k .Up = state) ∧
    (Point.In ⟨b.CursorPos.X, b.CursorPos.Y + 1⟩ b.Canvas.Bounds = true →
      ∃ b1, (onTypedKey state k .Down).buffers[k]? = some b1 ∧
        b1.CursorPos = ⟨b.CursorPos.X, b.CursorPos.Y + 1⟩) ∧
    (Point.In ⟨b.CursorPos.X, b.CursorPos.Y + 1⟩ b.Canvas.Bounds = false →
      onTypedKey state k .Down = state) ∧
    (Point.In ⟨b.CursorPos.X - 1, b.CursorPos.Y⟩ b.Canvas.Bounds = true →
      ∃ b1, (onTypedKey state k .Left).buffers[k]? = some b1 ∧
        b1.CursorPos = ⟨b.CursorPos.X - 1, b.CursorPos.Y⟩) ∧
    (Point.In ⟨b.CursorPos.X - 1, b.CursorPos.Y⟩ b.Canvas.Bounds = false →
      onTypedKey state k .Left = state) ∧
    (Point.In ⟨b.CursorPos.X + 1, b.CursorPos.Y⟩ b.Canvas.Bounds = true →
      ∃ b1, (onTypedKey state k .Right).buffers[k]? = some b1 ∧
        b1.CursorPos = ⟨b.CursorPos.X + 1, b.CursorPos.Y⟩) ∧
    (Point.In ⟨b.CursorPos.X + 1, b.CursorPos.Y⟩ b.Canvas.Bounds = false →
      onTypedKey state k .Right = state) := by
  unfold ImageBuffer.CursorInBounds at hin
  rw [Point.In_iff] at hin
  refine ⟨?_, ?_, ?_, ?_, ?_, ?_, ?_, ?_⟩
  · intro h
    rw [Point.In_iff] at h
    simp only at h
    have hg : b.CursorPos.Y > b.Canvas.Bounds.Min.Y := by omega
    simp only [onTypedKey, hk, if_pos hg]
    rw [appState.getElem?_setBuffer state k k b _ hk]
    exact ⟨_, if_pos rfl, rfl⟩
  · intro h
    rw [Bool.eq_false_iff, Ne, Point.In_iff] at h
    simp only at h
    have hg : ¬ b.CursorPos.Y > b.Canvas.Bounds.Min.Y := by omega
    simp only [onTypedKey, hk, if_neg hg]
  · intro h
    rw [Point.In_iff] at h
    simp only at h
    have hg : b.CursorPos.Y + 1 < b.Canvas.Bounds.Max.Y := by omega
    simp only [onTypedKey, hk, if_pos hg]
    rw [appState.getElem?_setBuffer state k k b _ hk]
    exact ⟨_, if_pos rfl, rfl⟩
  · intro h
    rw [Bool.eq_false_iff, Ne, Point.In_iff] at h
    simp only at h
    have hg : ¬ b.CursorPos.Y + 1 < b.Canvas.Bounds.Max.Y := by omega
    simp only [onTypedKey, hk, if_neg hg]
  · intro h
    rw [Point.In_iff] at h
    simp only at h
    have hg : b.CursorPos.X > b.Canvas.Bounds.Min.X := by omega
    simp only [onTypedKey, hk, if_pos hg]
    rw [appState.getElem?_setBuffer state k k b _ hk]
    exact ⟨_, if_pos rfl, rfl⟩
  · intro h
    rw [Bool.eq_false_iff, Ne, Point.In_iff] at h
    simp only at h
    have hg : ¬ b.CursorPos.X > b.Canvas.Bounds.Min.X := by omega
    simp only [onTypedKey, hk, if_neg hg]
  · intro h
    rw [Point.In_iff] at h
    simp only at h
    have hg : b.CursorPos.X + 1 < b.Canvas.Bounds.Max.X := by omega
    simp only [onTypedKey, hk, if_pos hg]
    rw [appState.getElem?_setBuffer state k k b _ hk]
    exact ⟨_, if_pos rfl, rfl⟩
  · intro h
    rw [Bool.eq_false_iff, Ne, Point.In_iff] at h
    simp only at h
    have hg : ¬ b.CursorPos.X + 1 < b.Canvas.Bounds.Max.X := by omega
    simp only [onTypedKey, hk, if_neg hg]

/-- C2: in every state of the running program, for a buffer with its cursor in
bounds and each of Up, Down, Left, Right, if the cell one unit away in that
direction lies within the canvas bounds the cursor position becomes exactly that
cell, and otherwise the key is a no-op (the whole state, so the cursor position,
the canvas and the overlay, is unchanged); in particular pressing Right when
`cursor.x + 1` equals the canvas width leaves the state, and so the cursor
position, unchanged. -/
theorem arrow_key_guard (state : appState) (k : Nat) (b : ImageBuffer)
    (hr : Reachable state) (hk : state.buffers[k]? = some b) (hin : b.CursorInBounds) :
    (Point.In ⟨b.CursorPos.X, b.CursorPos.Y - 1⟩ b.Canvas.Bounds = true →
      ∃ b1, (onTypedKey state k .Up).buffers[k]? = some b1 ∧
        b1.CursorPos = ⟨b.CursorPos.X, b.CursorPos.Y - 1⟩) ∧
    (Point.In ⟨b.CursorPos.X, b.CursorPos.Y - 1⟩ b.Canvas.Bounds = false →
      onTypedKey state k .Up = state) ∧
    (Point.In ⟨b.CursorPos.X, b.CursorPos.Y + 1⟩ b.Canvas.Bounds = true →
      ∃ b1, (onTypedKey state k .Down).buffers[k]? = some b1 ∧
        b1.CursorPos = ⟨b.CursorPos.X, b.CursorPos.Y + 1⟩) ∧
    (Point.In ⟨b.CursorPos.X, b.CursorPos.Y + 1⟩ b.Canvas.Bounds = false →
      onTypedKey state k .Down = state) ∧
    (Point.In ⟨b.CursorPos.X - 1, b.CursorPos.Y⟩ b.Canvas.Bounds = true →
      ∃ b1, (onTypedKey state k .Left).buffers[k]? = some b1 ∧
        b1.CursorPos = ⟨b.CursorPos.X - 1, b.CursorPos.Y⟩) ∧
    (Point.In ⟨b.CursorPos.X - 1, b.CursorPos.Y⟩ b.Canvas.Bounds = false →
      onTypedKey state k .Left = state) ∧
    (Point.In ⟨b.CursorPos.X + 1, b.CursorPos.Y⟩ b.Canvas.Bounds = true →
      ∃ b1, (onTypedKey state k .Right).buffers[k]? = some b1 ∧
        b1.CursorPos = ⟨b.CursorPos.X + 1, b.CursorPos.Y⟩) ∧
    (Point.In ⟨b.CursorPos.X + 1, b.CursorPos.Y⟩ b.Canvas.Bounds = false →
      onTypedKey state k .Right = state) ∧
    (b.CursorPos.X + 1 = b.Canvas.Bounds.Dx →
      onTypedKey state k .Right = state ∧
        (onTypedKey state k .Right).buffers[k]? = some b) := by
  obtain ⟨h1, h2, h3, h4, h5, h6, h7, h8⟩ := arrow_keys_move_or_stay state k b hk hin
  refine ⟨h1, h2, h3, h4, h5, h6, h7, h8, ?_⟩
  intro hw
  obtain ⟨h0, _⟩ := Reachable.rect_invariants state hr b (List.getElem?_mem hk)
  unfold ImageBuffer.CanvasAtOrigin at h0
  have hx : b.Canvas.Bounds.Min.X = 0 := by rw [h0]
  unfold Rectangle.Dx at hw
  have hg : ¬ b.CursorPos.X + 1 < b.Canvas.Bounds.Max.X := by omega
  have hs : onTypedKey state k .Right = state := by
    simp only [onTypedKey, hk, if_neg hg]
  rw [hs]
  exact ⟨rfl, hk⟩

/-- C2 on the program after it has loaded `greyCanvas` and Right has been typed:
the cursor is at `(1, 0)` of the 2x2 canvas, `cursor.x + 1` is the width, Right
changes nothing and Left moves the cursor to `(0, 0)`. -/
theorem arrow_key_guard_witness :
    Reachable (onTypedKey loadedState 0 .Right) ∧
    (onTypedKey loadedState 0 .Right).buffers[0]?
      = some (loadedBuffer.MoveCursor ⟨0, 0, 0, 255⟩ 1 0) ∧
    (loadedBuffer.MoveCursor ⟨0, 0, 0, 255⟩ 1 0).CursorInBounds ∧
    (loadedBuffer.MoveCursor ⟨0, 0, 0, 255⟩ 1 0).CursorPos.X + 1
      = (loadedBuffer.MoveCursor ⟨0, 0, 0, 255⟩ 1 0).Canvas.Bounds.Dx ∧
    onTypedKey (onTypedKey loadedState 0 .Right) 0 .Right = onTypedKey loadedState 0 .Right ∧
    (∃ b1, (onTypedKey (onTypedKey loadedState 0 .Right) 0 .Left).buffers[0]? = some b1 ∧
      b1.CursorPos = ⟨(loadedBuffer.MoveCursor ⟨0, 0, 0, 255⟩ 1 0).CursorPos.X - 1,
        (loadedBuffer.MoveCursor ⟨0, 0, 0, 255⟩ 1 0).CursorPos.Y⟩) :=
  have hr : Reachable (onTypedKey loadedState 0 .Right) :=
    Reachable.key _ 0 .Right
      (Reachable.load _ greyCanvas (by decide) (by decide) Reachable.start)
  have h := arrow_key_guard (onTypedKey loadedState 0 .Right) 0
    (loadedBuffer.MoveCursor ⟨0, 0, 0, 255⟩ 1 0) hr rfl (by decide)
  ⟨hr, rfl, by decide, by decide, (h.2.2.2.2.2.2.2.2 (by decide)).1,
    h.2.2.2.2.1 (by decide)⟩

/-! ## Claims about painting and picking colours -/

/-- C6, amended: in the paint scenario (2x2 opaque-black canvas, cursor at
`(0, 0)`, selected colour opaque red) Space makes the canvas pixel `(0, 0)`
opaque red and leaves the other three pixels black; the channel sum of the pixel
under the cursor changes from 0 to 255; the border pixel is white before Space,
and it is white after Space and after a further `DrawCursor`, since 255 is
below 384. -/
theorem paint_scenario :
    scenarioState.currentColor = ⟨255, 0, 0, 255⟩ ∧
    scenarioState.buffers.map (fun b => b.Canvas.Bounds) = [⟨⟨0, 0⟩, ⟨2, 2⟩⟩] ∧
    scenarioState.buffers.map (fun b => b.CursorPos) = [⟨0, 0⟩] ∧
    scenarioState.buffers.map (fun b =>
        [b.Canvas.RGBAAt 0 0, b.Canvas.RGBAAt 1 0, b.Canvas.RGBAAt 0 1, b.Canvas.RGBAAt 1 1])
      = [[⟨0, 0, 0, 255⟩, ⟨0, 0, 0, 255⟩, ⟨0, 0, 0, 255⟩, ⟨0, 0, 0, 255⟩]] ∧
    (onTypedKey scenarioState 0 .Space).buffers.map (fun b =>
        [b.Canvas.RGBAAt 0 0, b.Canvas.RGBAAt 1 0, b.Canvas.RGBAAt 0 1, b.Canvas.RGBAAt 1 1])
      = [[⟨255, 0, 0, 255⟩, ⟨0, 0, 0, 255⟩, ⟨0, 0, 0, 255⟩, ⟨0, 0, 0, 255⟩]] ∧
    scenarioState.buffers.map (fun b =>
        ((uint16 (b.Canvas.RGBAAt b.CursorPos.X b.CursorPos.Y).R +
          uint16 (b.Canvas.RGBAAt b.CursorPos.X b.CursorPos.Y).G) % 65536 +
          uint16 (b.Canvas.RGBAAt b.CursorPos.X b.CursorPos.Y).B) % 65536) = [0] ∧
    (onTypedKey scenarioState 0 .Space).buffers.map (fun b =>
        ((uint16 (b.Canvas.RGBAAt b.CursorPos.X b.CursorPos.Y).R +
          uint16 (b.Canvas.RGBAAt b.CursorPos.X b.CursorPos.Y).G) % 65536 +
          uint16 (b.Canvas.RGBAAt b.CursorPos.X b.CursorPos.Y).B) % 65536) = [255] ∧
    scenarioState.buffers.map (fun b => b.Overlay.RGBAAt 0 0) = [⟨255, 255, 255, 255⟩] ∧
    (onTypedKey scenarioState 0 .Space).buffers.map (fun b => b.Overlay.RGBAAt 0 0)
      = [⟨255, 255, 255, 255⟩] ∧
    (onTypedKey scenarioState 0 .Space).buffers.map (fun b =>
        (b.DrawCursor (onTypedKey scenarioState 0 .Space).currentColor).Overlay.RGBAAt 0 0)
      = [⟨255, 255, 255, 255⟩] := by
  decide

/-- C6 as stated fails: in the paint scenario the border pixel `(0, 0)` the
next `DrawCursor` writes after Space is opaque white, as it was before Space; it
is not opaque black. -/
theorem paint_scenario_counterexample :
    scenarioState.buffers.map (fun b => b.Overlay.RGBAAt (b.CursorPos.X * 3) (b.CursorPos.Y * 3))
      = [⟨255, 255, 255, 255⟩] ∧
    (onTypedKey scenarioState 0 .Space).buffers.map (fun b => b.Canvas.RGBAAt 0 0)
      = [⟨255, 0, 0, 255⟩] ∧
    (onTypedKey scenarioState 0 .Space).buffers.map (fun b =>
        (b.DrawCursor (onTypedKey scenarioState 0 .Space).currentColor).Overlay.RGBAAt
          (b.CursorPos.X * 3) (b.CursorPos.Y * 3))
      = [⟨255, 255, 255, 255⟩] ∧
    (onTypedKey scenarioState 0 .Space).buffers.map (fun b =>
        decide ((b.DrawCursor (onTypedKey scenarioState 0 .Space).currentColor).Overlay.RGBAAt
          (b.CursorPos.X * 3) (b.CursorPos.Y * 3) = ⟨0, 0, 0, 255⟩))
      = [false] := by
  decide

/-- The key Y under the buffer invariants: when every open buffer has its
cursor in bounds, its canvas at the origin and an overlay three times the
canvas, Y sets the selected colour to the canvas pixel under the cursor of the
window's buffer, redraws the fill pixel of every open buffer with it, and leaves
every cursor position and canvas as they are. -/
theorem colour_pick_of_invariants (state : appState) (k : Nat) (b : ImageBuffer)
    (hk : state.buffers[k]? = some b)
    (hall : ∀ bj ∈ state.buffers,
      bj.CursorInBounds ∧ bj.CanvasAtOrigin ∧ bj.OverlayScaled) :
    (onTypedKey state k .Y).currentColor = b.Canvas.RGBAAt b.CursorPos.X b.CursorPos.Y ∧
    (onTypedKey state k .Y).buffers.length = state.buffers.length ∧
    (∀ (j : Nat) (bj : ImageBuffer), state.buffers[j]? = some bj →
      ∃ bj1, (onTypedKey state k .Y).buffers[j]? = some bj1 ∧
        bj1.Overlay.RGBAAt (bj.CursorPos.X * 3 + 1) (bj.CursorPos.Y * 3 + 1)
          = (onTypedKey state k .Y).currentColor ∧
        bj1.CursorPos = bj.CursorPos ∧ bj1.Canvas = bj.Canvas) := by
  refine ⟨by simp [onTypedKey, hk, appState.redrawCursors],
    onTypedKey_length state k .Y (by decide), ?_⟩
  intro j bj hj
  obtain ⟨hc, h0, h3⟩ := hall bj (List.getElem?_mem hj)
  simp only [onTypedKey, hk, appState.redrawCursors_getElem?, hj, Option.map_some']
  refine ⟨_, rfl, ?_, rfl, rfl⟩
  exact (DrawCursor_fill_pixel bj _ h0 h3 hc)

/-- C7: in every state of the running program with any number of open buffers,
each with its cursor in bounds, pressing Y in the window of buffer `b` sets the
selected colour to the canvas pixel under the cursor of `b`; afterwards the same
number of buffers is open and in every one of them the overlay fill pixel
`(3x+1, 3y+1)` of that buffer's own cursor `(x, y)` is the new selected colour,
while the cursor position and the canvas of every buffer are unchanged. -/
theorem colour_pick_redraws_all (state : appState) (k : Nat) (b : ImageBuffer)
    (hr : Reachable state) (hk : state.buffers[k]? = some b)
    (hall : ∀ bj ∈ state.buffers, bj.CursorInBounds) :
    (onTypedKey state k .Y).currentColor = b.Canvas.RGBAAt b.CursorPos.X b.CursorPos.Y ∧
    (onTypedKey state k .Y).buffers.length = state.buffers.length ∧
    (∀ (j : Nat) (bj : ImageBuffer), state.buffers[j]? = some bj →
      ∃ bj1, (onTypedKey state k .Y).buffers[j]? = some bj1 ∧
        bj1.Overlay.RGBAAt (bj1.CursorPos.X * 3 + 1) (bj1.CursorPos.Y * 3 + 1)
          = (onTypedKey state k .Y).currentColor ∧
        bj1.CursorPos = bj.CursorPos ∧ bj1.Canvas = bj.Canvas) := by
  have hinv : ∀ bj ∈ state.buffers,
      bj.CursorInBounds ∧ bj.CanvasAtOrigin ∧ bj.OverlayScaled := by
    intro bj hm
    obtain ⟨h0, h3⟩ := Reachable.rect_invariants state hr bj hm
    exact ⟨hall bj hm, h0, h3⟩
  obtain ⟨h1, h2, h3⟩ := colour_pick_of_invariants state k b hk hinv
  refine ⟨h1, h2, ?_⟩
  intro j bj hj
  obtain ⟨bj1, hb1, hfill, hpos, hcan⟩ := h3 j bj hj
  refine ⟨bj1, hb1, ?_, hpos, hcan⟩
  rw [hpos]
  exact hfill

/-- C7 on the program with `greyCanvas` and `blackCanvas` loaded (two open
buffers) and Y typed in the first window: the selected colour becomes the grey
under its cursor and the fill pixel `(1, 1)` of the second buffer shows it. -/
theorem colour_pick_redraws_all_witness :
    Reachable twoLoadedState ∧
    twoLoadedState.buffers[0]? = some loadedBuffer ∧
    (∀ bj ∈ twoLoadedState.buffers, bj.CursorInBounds) ∧
    (onTypedKey twoLoadedState 0 .Y).currentColor = ⟨128, 128, 127, 255⟩ ∧
    (onTypedKey twoLoadedState 0 .Y).buffers.length = 2 ∧
    ∃ bj1, (onTypedKey twoLoadedState 0 .Y).buffers[1]? = some bj1 ∧
      bj1.Overlay.RGBAAt (bj1.CursorPos.X * 3 + 1) (bj1.CursorPos.Y * 3 + 1)
        = (onTypedKey twoLoadedState 0 .Y).currentColor ∧
      bj1.CursorPos = blackLoadedBuffer.CursorPos :=
  have hr : Reachable twoLoadedState :=
    Reachable.load _ blackCanvas (by decide) (by decide)
      (Reachable.load _ greyCanvas (by decide) (by decide) Reachable.start)
  have h := colour_pick_redraws_all twoLoadedState 0 loadedBuffer hr rfl (by decide)
  ⟨hr, rfl, by decide, h.1, h.2.1,
    (h.2.2 1 blackLoadedBuffer rfl).imp (fun _ hb => ⟨hb.1, hb.2.1, hb.2.2.1⟩)⟩

/-- The state after Space in the window of buffer `b`. -/
theorem onTypedKey_Space (state : appState) (k : Nat) (b : ImageBuffer)
    (hk : state.buffers[k]? = some b) :
    onTypedKey state k .Space =
      state.setBuffer k
        (ImageBuffer.DrawCursor
          ⟨b.Canvas.Set b.CursorPos.X b.CursorPos.Y (.rgba state.currentColor), b.Overlay,
            b.CursorPos⟩ state.currentColor) := by
  simp only [onTypedKey, hk]

/-- C8: for a buffer with its cursor `(x, y)` in bounds and every selected
colour `c`, after Space the canvas pixel `(x, y)` is `c`, every other canvas
pixel of the buffer and the canvas bounds are unchanged, the cursor position and
the selected colour are unchanged, and every other open buffer is unchanged,
its canvas included. -/
theorem paint_postcondition (state : appState) (k : Nat) (b : ImageBuffer)
    (hk : state.buffers[k]? = some b) (hin : b.CursorInBounds) :
    (onTypedKey state k .Space).currentColor = state.currentColor ∧
    (onTypedKey state k .Space).buffers.length = state.buffers.length ∧
    (∃ b1, (onTypedKey state k .Space).buffers[k]? = some b1 ∧
      b1.Canvas.RGBAAt b.CursorPos.X b.CursorPos.Y = state.currentColor ∧
      (∀ u v : Int, ¬ (u = b.CursorPos.X ∧ v = b.CursorPos.Y) →
        b1.Canvas.RGBAAt u v = b.Canvas.RGBAAt u v) ∧
      b1.Canvas.Bounds = b.Canvas.Bounds ∧
      b1.CursorPos = b.CursorPos) ∧
    (∀ j : Nat, j ≠ k → (onTypedKey state k .Space).buffers[j]? = state.buffers[j]?) := by
  rw [onTypedKey_Space state k b hk]
  refine ⟨rfl, appState.setBuffer_length _ _ _, ?_, ?_⟩
  · rw [appState.getElem?_setBuffer state k k b _ hk]
    refine ⟨_, if_pos rfl, ?_, ?_, ?_, rfl⟩
    · rw [ImageBuffer.DrawCursor_Canvas, Image.RGBAAt_Set]
      exact if_pos ⟨hin, rfl, rfl⟩
    · intro u v huv
      rw [ImageBuffer.DrawCursor_Canvas]
      simp only [Image.RGBAAt_Set]
      rw [if_neg (fun h => huv h.2)]
    · rw [ImageBuffer.DrawCursor_Canvas]
      simp [Image.Bounds, Image.Set_Rect]
  · intro j hjk
    rw [appState.getElem?_setBuffer state k j b _ hk, if_neg hjk]

/-- C8 on `twoState` with Space typed in the second window: the pixel under
its cursor becomes the selected colour red. -/
theorem paint_postcondition_witness :
    twoState.buffers[1]? = some ((NewImageBuffer blackCanvas).DrawCursor red) ∧
    ((NewImageBuffer blackCanvas).DrawCursor red).CursorInBounds ∧
    (onTypedKey twoState 1 .Space).currentColor = twoState.currentColor ∧
    (onTypedKey twoState 1 .Space).buffers[0]? = twoState.buffers[0]? :=
  have h := paint_postcondition twoState 1 ((NewImageBuffer blackCanvas).DrawCursor red) rfl
    (by decide)
  ⟨rfl, by decide, h.1, h.2.2.2 0 (by decide)⟩

/-- C9: for a buffer with its cursor in bounds and every selected colour,
pressing Space twice in a row yields the same canvas, overlay and cursor
position as pressing Space once; the whole state is the same. -/
theorem paint_idempotent (state : appState) (k : Nat) (b : ImageBuffer)
    (hk : state.buffers[k]? = some b) (_hin : b.CursorInBounds) :
    onTypedKey (onTypedKey state k .Space) k .Space = onTypedKey state k .Space ∧
    ∃ b1 b2, (onTypedKey state k .Space).buffers[k]? = some b1 ∧
      (onTypedKey (onTypedKey state k .Space) k .Space).buffers[k]? = some b2 ∧
      b2.Canvas = b1.Canvas ∧ b2.Overlay = b1.Overlay ∧ b2.CursorPos = b1.CursorPos := by
  have h1 : (onTypedKey state k .Space).buffers[k]? =
      some (ImageBuffer.DrawCursor
        ⟨b.Canvas.Set b.CursorPos.X b.CursorPos.Y (.rgba state.currentColor), b.Overlay,
          b.CursorPos⟩ state.currentColor) := by
    rw [onTypedKey_Space state k b hk, appState.getElem?_setBuffer state k k b _ hk]
    exact if_pos rfl
  have hcol : (onTypedKey state k .Space).currentColor = state.currentColor := by
    rw [onTypedKey_Space state k b hk]
    rfl
  have h2 : onTypedKey (onTypedKey state k .Space) k .Space = onTypedKey state k .Space := by
    rw [onTypedKey_Space (onTypedKey state k .Space) k _ h1, hcol]
    have hb : ImageBuffer.DrawCursor
        ⟨(ImageBuffer.DrawCursor
            ⟨b.Canvas.Set b.CursorPos.X b.CursorPos.Y (.rgba state.currentColor), b.Overlay,
              b.CursorPos⟩ state.currentColor).Canvas.Set
            (ImageBuffer.DrawCursor
              ⟨b.Canvas.Set b.CursorPos.X b.CursorPos.Y (.rgba state.currentColor), b.Overlay,
                b.CursorPos⟩ state.currentColor).CursorPos.X
            (ImageBuffer.DrawCursor
              ⟨b.Canvas.Set b.CursorPos.X b.CursorPos.Y (.rgba state.currentColor), b.Overlay,
                b.CursorPos⟩ state.currentColor).CursorPos.Y
            (.rgba state.currentColor),
          (ImageBuffer.DrawCursor
            ⟨b.Canvas.Set b.CursorPos.X b.CursorPos.Y (.rgba state.currentColor), b.Overlay,
              b.CursorPos⟩ state.currentColor).Overlay,
          (ImageBuffer.DrawCursor
            ⟨b.Canvas.Set b.CursorPos.X b.CursorPos.Y (.rgba state.currentColor), b.Overlay,
              b.CursorPos⟩ state.currentColor).CursorPos⟩ state.currentColor =
        ImageBuffer.DrawCursor
          ⟨b.Canvas.Set b.CursorPos.X b.CursorPos.Y (.rgba state.currentColor), b.Overlay,
            b.CursorPos⟩ state.currentColor := by
      simp only [ImageBuffer.DrawCursor_Canvas, ImageBuffer.DrawCursor_CursorPos,
        Image.Set_Set_self]
      exact ImageBuffer.DrawCursor_DrawCursor
        ⟨b.Canvas.Set b.CursorPos.X b.CursorPos.Y (.rgba state.currentColor), b.Overlay,
          b.CursorPos⟩ state.currentColor
    rw [hb, onTypedKey_Space state k b hk]
    simp [appState.setBuffer, List.set_set]
  refine ⟨h2, _, _, h1, ?_, rfl, rfl, rfl⟩
  rw [h2]
  exact h1

/-- C9 on the paint scenario: a second Space changes nothing. -/
theorem paint_idempotent_witness :
    scenarioState.buffers[0]? = some ((NewImageBuffer blackCanvas).DrawCursor red) ∧
    ((NewImageBuffer blackCanvas).DrawCursor red).CursorInBounds ∧
    onTypedKey (onTypedKey scenarioState 0 .Space) 0 .Space
      = onTypedKey scenarioState 0 .Space :=
  ⟨rfl, by decide,
    (paint_idempotent scenarioState 0 ((NewImageBuffer blackCanvas).DrawCursor red) rfl
      (by decide)).1⟩

/-! ## Claims about the new canvas -/

/-- C10, amended: pressing N in an open window creates a buffer whose canvas is
50x50 with origin `(0, 0)` and every pixel the zero colour `(0, 0, 0, 0)`
(transparent, alpha 0), whose overlay is 150x150 and whose cursor is at
`(0, 0)`; the buffer is added to the open buffers, and the existing buffers
(their canvases and cursors included) and the selected colour are unchanged. -/
theorem new_canvas (state : appState) (k : Nat) (b : ImageBuffer)
    (hk : state.buffers[k]? = some b) :
    (onTypedKey state k .N).buffers.length = state.buffers.length + 1 ∧
    (onTypedKey state k .N).currentColor = state.currentColor ∧
    (∀ j : Nat, j < state.buffers.length →
      (onTypedKey state k .N).buffers[j]? = state.buffers[j]?) ∧
    (∃ nb, (onTypedKey state k .N).buffers[state.buffers.length]? = some nb ∧
      nb.Canvas.Bounds = ⟨⟨0, 0⟩, ⟨50, 50⟩⟩ ∧
      nb.Canvas.Bounds.Dx = 50 ∧ nb.Canvas.Bounds.Dy = 50 ∧
      (∀ x y : Int, nb.Canvas.RGBAAt x y = ⟨0, 0, 0, 0⟩) ∧
      nb.Overlay.Rect = ⟨⟨0, 0⟩, ⟨150, 150⟩⟩ ∧
      nb.Overlay.Rect.Dx = 150 ∧ nb.Overlay.Rect.Dy = 150 ∧
      nb.CursorPos = ⟨0, 0⟩) := by
  have hB : (NewImageBuffer (NewRGBA (Rect 0 0 50 50))).Canvas.Bounds
      = ⟨⟨0, 0⟩, ⟨50, 50⟩⟩ := by decide
  simp only [onTypedKey, hk, openWindow]
  refine ⟨by simp, ?_, ?_, ?_⟩
  · trivial
  · intro j hj
    exact List.getElem?_append_left hj
  · refine ⟨_, List.getElem?_concat_length _ _, ?_, ?_, ?_, ?_, ?_, ?_, ?_, rfl⟩
    · exact hB
    · rw [ImageBuffer.DrawCursor_Canvas, hB]
      decide
    · rw [ImageBuffer.DrawCursor_Canvas, hB]
      decide
    · intro x y
      rw [ImageBuffer.DrawCursor_Canvas]
      simp [NewImageBuffer, NewRGBA, Image.RGBAAt]
    · rw [ImageBuffer.DrawCursor_Overlay_Rect]
      decide
    · rw [ImageBuffer.DrawCursor_Overlay_Rect]
      decide
    · rw [ImageBuffer.DrawCursor_Overlay_Rect]
      decide

/-- C10, amended, on `greyState`: N typed in its window opens a second
buffer. -/
theorem new_canvas_witness :
    greyState.buffers[0]? = some (greyBuffer.DrawCursor red) ∧
    (onTypedKey greyState 0 .N).buffers.length = greyState.buffers.length + 1 :=
  ⟨rfl, (new_canvas greyState 0 (greyBuffer.DrawCursor red) rfl).1⟩

/-- C10 as stated fails: the canvas of the buffer N opens in `greyState` is
50x50, and its pixels, the corner `(0, 0)` and the centre `(25, 25)` among them,
have alpha 0, not 255. -/
theorem new_canvas_counterexample :
    (onTypedKey greyState 0 .N).buffers.map (fun b => b.Canvas.Bounds)
      = [⟨⟨0, 0⟩, ⟨2, 2⟩⟩, ⟨⟨0, 0⟩, ⟨50, 50⟩⟩] ∧
    ((onTypedKey greyState 0 .N).buffers[1]?).map (fun b => b.Canvas.RGBAAt 0 0)
      = some ⟨0, 0, 0, 0⟩ ∧
    ((onTypedKey greyState 0 .N).buffers[1]?).map (fun b => (b.Canvas.RGBAAt 25 25).A)
      = some 0 ∧
    ((onTypedKey greyState 0 .N).buffers[1]?).map
        (fun b => decide ((b.Canvas.RGBAAt 0 0).A = 255)) = some false := by
  decide

end Pixelart
